import Mathlib

/-!
Shallow embedding of the Maildir synchronization engine (filename codec,
directory scanner, reconciliation pass, commit/sync engine) together with
proofs about its reconciliation statuses, flag round-trips and commit
ordering.  Filenames and paths are modelled as `List Char`; the filesystem
is modelled by explicit oracles (stat results, directory listings, rename
outcomes); machine side effects are modelled as explicit event traces.
-/

namespace Maildir

/-- A message record, mirroring the fields of `struct Email` (plus the
`maildir_flags` string kept in `struct MaildirEmailData`) that the maildir
engine reads and writes.  `env_changed` stands for `e->env && e->env->changed`;
a fresh `email_new()` record is all-false with empty strings. -/
structure Email where
  path : List Char := []
  flagged : Bool := false
  replied : Bool := false
  read : Bool := false
  old : Bool := false
  deleted : Bool := false
  trash : Bool := false
  purge : Bool := false
  active : Bool := false
  changed : Bool := false
  attach_del : Bool := false
  env_changed : Bool := false
  maildir_flags : List Char := []
deriving DecidableEq

/-- Part of a string after its last `/` (the whole string when there is no
`/`), as computed by `strrchr(src, '/')` followed by `+ 1`. -/
def afterLastSlash (s : List Char) : List Char :=
  (s.reverse.takeWhile (fun c => !(c == '/'))).reverse

/-- Translation of `maildir_canon_filename`: strip any directory prefix,
then truncate at the first `,` or `:` (the `strpbrk(dest->data, ",:")`
call). -/
def maildir_canon_filename (s : List Char) : List Char :=
  (afterLastSlash s).takeWhile (fun c => !(c == ',' || c == ':'))

/-- Part of a string after its last `:` (`strrchr(path, ':')` followed by
`+ 1`); meaningful only when the string does contain a `:`. -/
def afterLastColon (s : List Char) : List Char :=
  (s.reverse.takeWhile (fun c => !(c == ':'))).reverse

/-- The maildir flag suffix of a filename: the characters after the final
`:` provided they start with `2,` (the `mutt_str_startswith(p + 1, "2,")`
test in `maildir_parse_flags`); `none` when the filename carries no such
suffix. -/
def flagSuffix (s : List Char) : Option (List Char) :=
  if s.contains ':' then
    match afterLastColon s with
    | '2' :: ',' :: rest => some rest
    | _ => none
  else none

/-- The character loop of `maildir_parse_flags`: walk the flag suffix,
setting `flagged`/`replied`/`read` on `F`/`R`/`S`; on `T` set both `trash`
and `deleted` unless the record is already flagged and `$flag_safe` is set;
any other character is appended to the rebuilt opaque flag string `q`. -/
def parseFlagLoop (flag_safe : Bool) : List Char → Email → List Char → Email × List Char
  | [], e, q => (e, q)
  | c :: rest, e, q =>
    if c == 'F' then
      parseFlagLoop flag_safe rest { e with flagged := true } q
    else if c == 'R' then
      parseFlagLoop flag_safe rest { e with replied := true } q
    else if c == 'S' then
      parseFlagLoop flag_safe rest { e with read := true } q
    else if c == 'T' then
      if !e.flagged || !flag_safe then
        parseFlagLoop flag_safe rest { e with trash := true, deleted := true } q
      else
        parseFlagLoop flag_safe rest e q
    else
      parseFlagLoop flag_safe rest e (q ++ [c])

/-- Translation of `maildir_parse_flags`: reset `flagged`/`read`/`replied`,
locate the `:2,` suffix, and process it with `parseFlagLoop`.  When a
suffix is found the stored opaque flag string is replaced by the rebuilt
one (empty meaning the C `NULL` after the `FREE` of an empty string);
when no suffix is found the stored opaque flags are left untouched. -/
def maildir_parse_flags (flag_safe : Bool) (e : Email) (path : List Char) : Email :=
  let e := { e with flagged := false, read := false, replied := false }
  match flagSuffix path with
  | none => e
  | some suffix =>
    let r := parseFlagLoop flag_safe suffix e []
    { r.1 with maildir_flags := r.2 }

/-- Insertion step of the byte-wise character sort used by
`maildir_gen_flags` (its `qsort` with `ch_compare`). -/
def insertSorted (c : Char) : List Char → List Char
  | [] => [c]
  | d :: rest => if c.toNat ≤ d.toNat then c :: d :: rest else d :: insertSorted c rest

/-- Byte-wise ascending character sort (the `qsort(tmp, strlen(tmp), 1,
ch_compare)` call of `maildir_gen_flags`). -/
def sortChars : List Char → List Char
  | [] => []
  | c :: rest => insertSorted c (sortChars rest)

/-- The standard flag letters emitted by `maildir_gen_flags`, in its fixed
`F`, `R`, `S`, `T` order. -/
def stdFlags (fl re se tr : Bool) : List Char :=
  (if fl then ['F'] else []) ++ (if re then ['R'] else []) ++
    (if se then ['S'] else []) ++ (if tr then ['T'] else [])

/-- Translation of `maildir_gen_flags`: when any standard flag, the `old`
bit, or an opaque flag string is present, produce `:2,` followed by
`F`/`R`/`S`/`T` (note: `T` comes from `deleted`) and the opaque flags,
the whole letter string being sorted byte-wise iff the opaque flag string
is non-empty (non-`NULL` in C); otherwise produce the empty string. -/
def maildir_gen_flags (e : Email) : List Char :=
  let flags := e.maildir_flags
  if e.flagged || e.replied || e.read || e.deleted || e.old || !flags.isEmpty then
    let tmp := stdFlags e.flagged e.replied e.read e.deleted ++ flags
    let tmp := if !flags.isEmpty then sortChars tmp else tmp
    ':' :: '2' :: ',' :: tmp
  else []

/-- A maildir flag set as the specification describes it: the four
standard bits plus a string of opaque extra flag letters. -/
structure FlagSet where
  flagged : Bool
  replied : Bool
  seen : Bool
  trashed : Bool
  extras : List Char
deriving DecidableEq

/-- View a flag set as a message record, for feeding `maildir_gen_flags`
(`trashed` populates both `deleted` — which drives the `T` letter — and
`trash`). -/
def emailOfFlagSet (F : FlagSet) : Email :=
  { flagged := F.flagged, replied := F.replied, read := F.seen,
    deleted := F.trashed, trash := F.trashed, maildir_flags := F.extras }

/-- The suffix generated from a flag set (`generate_suffix` in the spec). -/
def generate_suffix (F : FlagSet) : List Char :=
  maildir_gen_flags (emailOfFlagSet F)

/-- Parsing a filename into a fresh record (`parse_flags` in the spec):
`maildir_parse_flags` applied to an `email_new()` record. -/
def parse_flags (flag_safe : Bool) (name : List Char) : Email :=
  maildir_parse_flags flag_safe {} name

/-- The flag set carried by a parsed record. -/
def flagSetOf (e : Email) : FlagSet :=
  ⟨e.flagged, e.replied, e.read, e.trash, e.maildir_flags⟩

/-- A character the flag parser treats as opaque (not one of the four
standard maildir flag letters). -/
def isNonStdFlag (c : Char) : Bool :=
  !(c == 'F' || c == 'R' || c == 'S' || c == 'T')

/-- An opaque extra flag letter: alphabetic and not a standard letter. -/
def isOpaqueFlagChar (c : Char) : Bool :=
  c.isAlpha && isNonStdFlag c

/-- Relevant configuration booleans read from the config subset by the
maildir engine. -/
structure MaildirConfig where
  check_new : Bool := true
  mark_old : Bool := false
  flag_safe : Bool := false
  maildir_trash : Bool := false
deriving DecidableEq

/-- One `readdir` result inside `new/` or `cur/`: the entry name, its inode
number, and whether the message file itself can later be opened non-empty
(the success of the second, delayed parsing pass on it). -/
structure ScanEntry where
  name : List Char
  inode : Nat
  readable : Bool := true
deriving DecidableEq

/-- An entry of the scan array, mirroring `struct MdEmail`: the candidate
record (freed entries hold `none`), its inode, and the canonical filename
filled in by `maildir_mbox_check` before the merge loop. -/
structure MdEmail where
  email : Option Email
  inode : Nat
  canon_fname : List Char := []
  readable : Bool := true
deriving DecidableEq

/-- Candidate record built by `maildir_parse_dir` for one directory entry:
a fresh record whose `old` bit follows `$mark_old` for `cur/`, whose flags
come from the filename, and whose path is `subdir/name`. -/
def mkCandidate (cfg : MaildirConfig) (subdir : List Char) (name : List Char) : Email :=
  let is_old := cfg.mark_old && subdir == "cur".toList
  let e := maildir_parse_flags cfg.flag_safe { old := is_old } name
  { e with path := subdir ++ '/' :: name }

/-- Insertion step of the inode sort (`maildir_cmp_inode` under
`ARRAY_SORT`). -/
def insertByInode (x : MdEmail) : List MdEmail → List MdEmail
  | [] => [x]
  | y :: rest => if x.inode ≤ y.inode then x :: y :: rest else y :: insertByInode x rest

/-- Sort the scan array ascending by inode number. -/
def sortByInode : List MdEmail → List MdEmail
  | [] => []
  | x :: rest => insertByInode x (sortByInode rest)

/-- Translation of `maildir_parse_dir`: on a listing failure (`opendir`
returned `NULL`) leave the accumulated array untouched and report `-1`;
otherwise append one candidate per entry not starting with `.`, sort the
whole accumulated array by inode, and report `0`. -/
def maildir_parse_dir (cfg : MaildirConfig) (mda : List MdEmail) (subdir : List Char)
    (listing : Option (List ScanEntry)) : List MdEmail × Int :=
  match listing with
  | none => (mda, -1)
  | some des =>
    let mda := mda ++ des.filterMap (fun de =>
      if de.name.head? == some '.' then none
      else some { email := some (mkCandidate cfg subdir de.name), inode := de.inode,
                  readable := de.readable })
    (sortByInode mda, 0)

/-- Second parsing pass (`maildir_delayed_parsing`, header cache disabled):
a candidate whose message file cannot be opened or is empty is freed; the
filename-derived flag state of the surviving candidates is unchanged
(re-parsing the same filename is idempotent on it). -/
def maildir_delayed_parsing (mda : List MdEmail) : List MdEmail :=
  mda.map fun md =>
    match md.email with
    | none => md
    | some _ => if md.readable then md else { md with email := none }

/-- Modelled from the spec: `maildir_move_to_mailbox` is not part of this
source corpus.  Per §4.4 step 3 every candidate not consumed by the merge
is appended to the owning collection as a new record and counted in
`num_new`. -/
def maildir_move_to_mailbox (emails : List Email) (mda : List MdEmail) : List Email × Nat :=
  let adopted := mda.filterMap MdEmail.email
  (emails ++ adopted, adopted.length)

/-- Modelled from the spec: `maildir_update_flags` is not part of this
source corpus.  Per §4.4 step 2 it overwrites the record's
filename-derived flags (`flagged`, `replied`, `read`, `old`) with the
candidate's and reports whether anything changed. -/
def maildir_update_flags (e cand : Email) : Email × Bool :=
  let diff := !(e.flagged == cand.flagged && e.replied == cand.replied &&
    e.read == cand.read && e.old == cand.old)
  ({ e with
      flagged := cand.flagged
      replied := cand.replied
      read := cand.read
      old := cand.old }, diff)

/-- Modelled from the spec: the lookup table built with `mutt_hash_new` /
`mutt_hash_find` is keyed by canonical filename (§4.4 step 1); finding
returns the first candidate in scan order with that key, and consuming it
frees its record (`email_free(&md->email)`) while keeping the array entry. -/
def consumeByCanon (key : List Char) : List MdEmail → Option Email × List MdEmail
  | [] => (none, [])
  | md :: rest =>
    if md.canon_fname == key then
      (md.email, { md with email := none } :: rest)
    else
      let r := consumeByCanon key rest
      (r.1, md :: r.2)

/-- The vanish test of `maildir_mbox_check`: the record's path lies in a
subdirectory that was rescanned this pass (`mutt_strn_equal(e->path,
"new/", 4)` against the `changed` bitset). -/
def vanishCond (changedNew changedCur : Bool) (path : List Char) : Bool :=
  (changedNew && path.take 4 == "new/".toList) ||
  (changedCur && path.take 4 == "cur/".toList)

/-- The matched-record merge of `maildir_mbox_check` (its "message already
exists" block): refresh `active`, adopt a moved path, merge
filename-derived flags when the record has no local changes, then the
`deleted`/`trash` reconciliation: only when the record's `deleted` equals
its `trash` is the candidate's `deleted` promoted (flagging the pass as
flag-changed when it differs), and `trash` is unconditionally overwritten
by the candidate's `trash`.  Returns the updated record and the pass-level
flag-change contribution. -/
def mergeMatched (e cand : Email) : Email × Bool :=
  let e := { e with active := true }
  let e := if e.path = cand.path then e else { e with path := cand.path }
  let r1 := if !e.changed then maildir_update_flags e cand else (e, false)
  let e := r1.1
  let r2 :=
    if e.deleted == e.trash then
      if e.deleted != cand.deleted then ({ e with deleted := cand.deleted }, true)
      else (e, false)
    else (e, false)
  let e := { r2.1 with trash := cand.trash }
  (e, r1.2 || r2.2)

/-- Result of processing one existing record in the merge loop. -/
structure StepResult where
  email : Email
  mda : List MdEmail
  occult : Bool
  flags_changed : Bool
deriving DecidableEq

/-- Processing of one existing record in the merge loop of
`maildir_mbox_check`: mark inactive, probe the lookup by canonical name,
and take the matched / vanished / assumed-unchanged branch. -/
def checkExisting (changedNew changedCur : Bool) (mda : List MdEmail) (e : Email) : StepResult :=
  let key := maildir_canon_filename e.path
  let e := { e with active := false }
  let r := consumeByCanon key mda
  match r.1 with
  | some cand =>
    let m := mergeMatched e cand
    { email := m.1, mda := r.2, occult := false, flags_changed := m.2 }
  | none =>
    if vanishCond changedNew changedCur e.path then
      { email := { e with deleted := true, purge := true }, mda := r.2,
        occult := true, flags_changed := false }
    else
      { email := { e with active := true }, mda := r.2,
        occult := false, flags_changed := false }

/-- Accumulated result of the merge loop. -/
structure MergeResult where
  emails : List Email
  mda : List MdEmail
  occult : Bool
  flags_changed : Bool
deriving DecidableEq

/-- The merge loop of `maildir_mbox_check` over the existing records
(`for (int i = 0; i < m->msg_count; i++)`). -/
def checkLoop (changedNew changedCur : Bool) :
    List Email → List MdEmail → Bool → Bool → MergeResult
  | [], mda, occ, fc => ⟨[], mda, occ, fc⟩
  | e :: rest, mda, occ, fc =>
    let s := checkExisting changedNew changedCur mda e
    let r := checkLoop changedNew changedCur rest s.mda (occ || s.occult) (fc || s.flags_changed)
    { r with emails := s.email :: r.emails }

/-- The in-memory mailbox state the check pass reads and writes: the record
collection, the recorded mtime of `new/` (`m->mtime`) and of `cur/`
(`mdata->mtime_cur`), and the mailbox-changed bit. -/
structure Mailbox where
  emails : List Email
  mtime : Int := 0
  mtime_cur : Int := 0
  changed : Bool := false
deriving DecidableEq

/-- The filesystem as one reconciliation pass observes it: the `stat`
mtimes of `new/` and `cur/` (`none` when `stat` fails) and their listings
(`none` when `opendir` fails). -/
structure MaildirFS where
  stat_new : Option Int := none
  stat_cur : Option Int := none
  list_new : Option (List ScanEntry) := none
  list_cur : Option (List ScanEntry) := none
deriving DecidableEq

/-- Summary status of a mailbox operation (`enum MxStatus`). -/
inductive MxStatus where
  | error
  | ok
  | newMail
  | flags
  | reopened
deriving DecidableEq

/-- The scan stage of `maildir_mbox_check`: run `maildir_parse_dir` on the
changed subdirectories into one shared array — its return value is
ignored, so a failed listing contributes nothing and does not abort — then
fill in each entry's canonical filename for the lookup table. -/
def scanPass (cfg : MaildirConfig) (fs : MaildirFS) (changedNew changedCur : Bool) :
    List MdEmail :=
  let mda := if changedNew then (maildir_parse_dir cfg [] "new".toList fs.list_new).1 else []
  let mda := if changedCur then (maildir_parse_dir cfg mda "cur".toList fs.list_cur).1 else mda
  mda.map fun md =>
    { md with canon_fname := maildir_canon_filename ((md.email.map Email.path).getD []) }

/-- The merge stage of `maildir_mbox_check` applied to the scan result. -/
def mergeOf (cfg : MaildirConfig) (fs : MaildirFS) (m : Mailbox) (tn tc : Int) : MergeResult :=
  let cN := decide (tn > m.mtime)
  let cC := decide (tc > m.mtime_cur)
  checkLoop cN cC m.emails (scanPass cfg fs cN cC) false false

/-- Number of new messages adopted by the pass: candidates that survived
the merge and the delayed parsing. -/
def numNewOf (cfg : MaildirConfig) (fs : MaildirFS) (m : Mailbox) (tn tc : Int) : Nat :=
  (maildir_move_to_mailbox (mergeOf cfg fs m tn tc).emails
    (maildir_delayed_parsing (mergeOf cfg fs m tn tc).mda)).2

/-- Translation of `maildir_mbox_check` (inotify monitoring and header
cache disabled): bail out `Ok` when `$check_new` is unset; return `Error`
when either subdirectory cannot be `stat`ed; return `Ok` immediately when
neither mtime advanced; otherwise record the new mtimes, scan the changed
subdirectories, merge, adopt survivors, and report `Reopened` >
`NewMail` > `FlagsChanged` > `Ok`. -/
def maildir_mbox_check (cfg : MaildirConfig) (fs : MaildirFS) (m : Mailbox) :
    MxStatus × Mailbox :=
  if !cfg.check_new then (.ok, m)
  else
    match fs.stat_new, fs.stat_cur with
    | none, _ => (.error, m)
    | some _, none => (.error, m)
    | some tn, some tc =>
      let cN := decide (tn > m.mtime)
      let cC := decide (tc > m.mtime_cur)
      if !cN && !cC then (.ok, m)
      else
        let m' := { m with mtime := tn, mtime_cur := tc }
        let r := mergeOf cfg fs m tn tc
        let mv := maildir_move_to_mailbox r.emails (maildir_delayed_parsing r.mda)
        let m' := { m' with emails := mv.1, changed := m'.changed || decide (0 < mv.2) }
        if r.occult then (.reopened, m')
        else if 0 < mv.2 then (.newMail, m')
        else if r.flags_changed then (.flags, m')
        else (.ok, m')

/-- One `readdir` result seen by the fast counting scan
(`maildir_check_dir`): the entry name and the outcome of the
`$mail_check_recent` ctime test on the message file (`stat` succeeded and
the ctime compares `<= 0` against `m->last_visited`). -/
structure CountEntry where
  name : List Char
  ctime_le_last_visited : Bool := false
deriving DecidableEq

/-- The counters `maildir_check_dir` increments on the mailbox. -/
structure DirCounts where
  msg_count : Nat := 0
  msg_unread : Nat := 0
  msg_flagged : Nat := 0
  msg_new : Nat := 0
  has_new : Bool := false
deriving DecidableEq

/-- Loop state of the counting scan: the counters, the current value of
the (mutated) `check_new` argument, and whether the loop has `break`ed. -/
structure CountState where
  counts : DirCounts
  check_new : Bool
  stopped : Bool := false
deriving DecidableEq

/-- Part of a string after the first occurrence of the substring `:2,`
(the `strstr(de->d_name, ":2,")` call, skipping the matched pattern);
`none` when the pattern does not occur. -/
def afterFirst23 : List Char → Option (List Char)
  | [] => none
  | c :: rest =>
    if c == ':' && rest.take 2 == ['2', ','] then some (rest.drop 2)
    else afterFirst23 rest

/-- Whether a directory entry name carries the given letter in its `:2,`
flag suffix (`p && strchr(p + 3, c)`). -/
def suffixHas (name : List Char) (c : Char) : Bool :=
  match afterFirst23 name with
  | some fl => fl.contains c
  | none => false

/-- Whether a directory entry name lacks an `S` in its flag suffix — no
suffix at all also counts as unseen (`!p || !strchr(p + 3, 'S')`). -/
def suffixLacksSeen (name : List Char) : Bool :=
  match afterFirst23 name with
  | some fl => !fl.contains 'S'
  | none => true

/-- Whether a directory entry name carries a `T` in its `:2,` flag
suffix. -/
def hasTrashedSuffix (name : List Char) : Bool :=
  suffixHas name 'T'

/-- The body of the `readdir` loop of `maildir_check_dir` for one entry:
skip dotfiles and entries whose flag suffix contains `T`; count totals and
flagged; for entries without `S`, count unread and — when still checking
for new mail and the `$mail_check_recent` ctime test does not veto it —
record new mail, stop checking for new, and `break` unless also counting
stats. -/
def maildir_check_dir_step (mail_check_recent check_stats : Bool)
    (st : CountState) (de : CountEntry) : CountState :=
  if st.stopped then st
  else if de.name.head? == some '.' then st
  else if hasTrashedSuffix de.name then st
  else
    let c0 := st.counts
    let c1 :=
      if check_stats then
        { c0 with
            msg_count := c0.msg_count + 1
            msg_flagged :=
              if suffixHas de.name 'F' then c0.msg_flagged + 1
              else c0.msg_flagged }
      else c0
    if suffixLacksSeen de.name then
        let c2 := if check_stats then { c1 with msg_unread := c1.msg_unread + 1 } else c1
        if st.check_new then
          if mail_check_recent && de.ctime_le_last_visited then
            { st with counts := c2 }
          else
            { counts := { c2 with has_new := true, msg_new := c2.msg_new + 1 },
              check_new := false, stopped := !check_stats }
        else { st with counts := c2 }
      else { st with counts := c1 }

/-- The `readdir` loop of `maildir_check_dir`. -/
def maildir_check_dir_loop (mail_check_recent check_stats : Bool) :
    CountState → List CountEntry → CountState
  | st, [] => st
  | st, de :: rest =>
    maildir_check_dir_loop mail_check_recent check_stats
      (maildir_check_dir_step mail_check_recent check_stats st de) rest

/-- What the counting scan observes of the filesystem: whether the
subdirectory's own mtime predates `m->last_visited` (`stat` succeeded and
the comparison was `< 0`), and its listing (`none` when `opendir` fails). -/
structure CountDirFS where
  dir_mtime_lt_last_visited : Bool := false
  listing : Option (List CountEntry) := none
deriving DecidableEq

/-- Translation of `maildir_check_dir`: optionally drop the new-mail check
via the directory-mtime short cut, bail out when nothing is left to do,
mark the mailbox type unknown when the directory cannot be listed, and
otherwise run the counting loop.  Returns the updated counters and
whether the mailbox was downgraded to the unknown type. -/
def maildir_check_dir (mail_check_recent : Bool) (fs : CountDirFS)
    (counts : DirCounts) (check_new check_stats : Bool) : DirCounts × Bool :=
  let check_new :=
    if check_new && mail_check_recent && fs.dir_mtime_lt_last_visited then false
    else check_new
  if !(check_new || check_stats) then (counts, false)
  else
    match fs.listing with
    | none => (counts, true)
    | some des =>
      ((maildir_check_dir_loop mail_check_recent check_stats
          ⟨counts, check_new, false⟩ des).counts, false)

/-- Outcome of one `rename` attempt as the commit loop distinguishes
them (`mutt_file_safe_rename` result and `errno`). -/
inductive RenameResult where
  | success
  | eexist
  | other_error
deriving DecidableEq

/-- Outcome of one exclusive-create attempt (`open(path,
O_WRONLY | O_EXCL | O_CREAT)`). -/
inductive CreateResult where
  | created
  | eexist
  | other_error
deriving DecidableEq

/-- A filesystem mutation event emitted by the commit/sync engine, in
program order. -/
inductive FsEvent where
  | fsync_close (ok : Bool)
  | rename_attempt (src dst : List Char) (result : RenameResult)
  | set_mtime (dst : List Char) (t : Int)
  | create_attempt (dst : List Char) (result : CreateResult)
  | unlink_file (path : List Char)
deriving DecidableEq

/-- An open message being committed (`struct Message`): whether flushing
and closing its handle will succeed, its `tmp/` path, and the optional
received timestamp to restamp onto the final file. -/
structure Message where
  fp_fsync_ok : Bool := true
  path : List Char := []
  received : Option Int := none
deriving DecidableEq

/-- Oracle for one commit: the `(epoch, random)` pairs produced by
`mutt_date_epoch()` / `mutt_rand64()` for each loop iteration together
with that iteration's rename outcome, and whether the `utime` restamp
succeeds. -/
structure CommitOracle where
  attempts : List (Nat × Nat × RenameResult) := []
  utime_ok : Bool := true
deriving DecidableEq

/-- Decimal digits of a number, for rendering generated unique names. -/
def natChars (n : Nat) : List Char :=
  Nat.toDigits 10 n

/-- The destination name generated by one commit-loop iteration:
`subdir/<epoch>.R<random>.<hostname><suffix>`. -/
def commitName (subdir suffix host : List Char) (epoch rnd : Nat) : List Char :=
  subdir ++ '/' :: natChars epoch ++ '.' :: 'R' :: natChars rnd ++ '.' :: host ++ suffix

/-- The retry loop of `maildir_commit_message`: generate a fresh name,
attempt the safe rename, retry on `EEXIST`, abort on any other error; on
success optionally restamp the file time.  Returns the return code, the
events appended to the trace, and the relative destination path stored
back into the record on success. -/
def commitLoop (m_path host subdir suffix : List Char) (msg : Message) (utime_ok : Bool) :
    List (Nat × Nat × RenameResult) → List FsEvent → Int × List FsEvent × Option (List Char)
  | [], trace => (-1, trace, none)
  | (epoch, rnd, res) :: rest, trace =>
    let part := commitName subdir suffix host epoch rnd
    let full := m_path ++ '/' :: part
    let trace := trace ++ [FsEvent.rename_attempt msg.path full res]
    match res with
    | .success =>
      match msg.received with
      | some t =>
        let trace := trace ++ [FsEvent.set_mtime full t]
        if utime_ok then (0, trace, some part) else (-1, trace, some part)
      | none => (0, trace, some part)
    | .eexist => commitLoop m_path host subdir suffix msg utime_ok rest trace
    | .other_error => (-1, trace, none)

/-- Translation of `maildir_commit_message` (notmuch disabled): flush and
close the source handle first — a failure there aborts before any rename —
then extract the subdirectory (first three characters of the `tmp/`
basename) and the flag suffix (from the first `:` of the basename,
truncated to 15 characters by its buffer), and run the rename retry
loop.  The oracle list bounds how many retries are modelled; exhausting it
stands for the loop still running. -/
def maildir_commit_message (m_path host : List Char) (co : CommitOracle) (msg : Message) :
    Int × List FsEvent × Option (List Char) :=
  if !msg.fp_fsync_ok then (-1, [FsEvent.fsync_close false], none)
  else
    let base := afterLastSlash msg.path
    let subdir := base.take 3
    let suffix := (base.dropWhile (fun c => !(c == ':'))).take 15
    commitLoop m_path host subdir suffix msg co.utime_ok co.attempts [FsEvent.fsync_close true]

/-- The exclusive-create loop of `maildir_msg_open_new`: generate
`tmp/<subdir-hint>.<epoch>.R<random>.<hostname><suffix>` names until one
is created, retrying only on `EEXIST`.  Returns the created path (or
`none` on failure) and the events emitted. -/
def openNewLoop (m_path hint suffix host : List Char) :
    List (Nat × Nat × CreateResult) → List FsEvent → Option (List Char) × List FsEvent
  | [], trace => (none, trace)
  | (epoch, rnd, res) :: rest, trace =>
    let path := m_path ++ "/tmp/".toList ++ hint ++ '.' :: natChars epoch ++
      '.' :: 'R' :: natChars rnd ++ '.' :: host ++ suffix
    let trace := trace ++ [FsEvent.create_attempt path res]
    match res with
    | .created => (some path, trace)
    | .eexist => openNewLoop m_path hint suffix host rest trace
    | .other_error => (none, trace)

/-- Translation of `maildir_msg_open_new` for a known record: the flag
suffix is generated from the record with `deleted` cleared (truncated to
15 characters by its `char suffix[16]` buffer), the subdirectory hint is
`cur` when the record is read or old, and the exclusive-create loop
allocates the `tmp/` file. -/
def maildir_msg_open_new (m_path host : List Char)
    (atts : List (Nat × Nat × CreateResult)) (e : Email) :
    Option (List Char) × List FsEvent :=
  let suffix := (maildir_gen_flags { e with deleted := false }).take 15
  let hint := if e.read || e.old then "cur".toList else "new".toList
  openNewLoop m_path hint suffix host atts []

/-- Oracle for a rewrite: whether the source message opens, the
exclusive-create outcomes for the new `tmp/` file, and the copy outcome
(`mutt_copy_message`), plus the commit oracle. -/
structure RewriteOracle where
  open_src_ok : Bool := true
  create_attempts : List (Nat × Nat × CreateResult) := []
  copy_ok : Bool := true
  fsync_ok : Bool := true
  commit : CommitOracle := {}
deriving DecidableEq

/-- Translation of `maildir_rewrite_message` for one record: open source
and destination, copy the message, commit the destination (which renames
it into place and stores the new relative path into the record), and
unlink the old file on success.  Returns the return code, the emitted
events, and the possibly updated record. -/
def maildir_rewrite_message (m_path host : List Char) (orc : RewriteOracle) (e : Email) :
    Int × List FsEvent × Email :=
  if !orc.open_src_ok then (-1, [], e)
  else
    let opened := maildir_msg_open_new m_path host orc.create_attempts e
    match opened.1 with
    | none => (-1, opened.2, e)
    | some tmppath =>
      if !orc.copy_ok then (-1, opened.2, e)
      else
        let oldfull := m_path ++ '/' :: e.path
        let msg : Message := { fp_fsync_ok := orc.fsync_ok, path := tmppath }
        let cm := maildir_commit_message m_path host orc.commit msg
        if cm.1 = 0 then
          let e := { e with path := cm.2.2.getD e.path }
          (0, opened.2 ++ cm.2.1 ++ [FsEvent.unlink_file oldfull], e)
        else (-1, opened.2 ++ cm.2.1, e)

/-- The record's recomputed sync target: `cur/` when read or old else
`new/`, plus the unique part of the current basename (everything before
its first `:`), plus the regenerated flag suffix truncated to 15
characters by its `char suffix[16]` buffer (the `snprintf` in
`maildir_gen_flags` truncates at `destlen`); `none` when the stored path
has no `/` (the `strrchr` failure branch of `maildir_sync_message`). -/
def syncTarget (e : Email) : Option (List Char) :=
  if e.path.contains '/' then
    some ((if e.read || e.old then "cur".toList else "new".toList) ++
      '/' :: ((afterLastSlash e.path).takeWhile (fun c => !(c == ':'))) ++
      (maildir_gen_flags e).take 15)
  else none

/-- Translation of `maildir_sync_message` for one record: records needing
attachment rewriting or header updates go through
`maildir_rewrite_message`; otherwise the target path is recomputed and —
only when it differs from the current path — `trash` is refreshed from
`deleted` and the file renamed.  Returns the return code, the emitted
filesystem events, and the updated record. -/
def maildir_sync_message (m_path host : List Char) (orc : RewriteOracle)
    (rename_ok : Bool) (e : Email) : Int × List FsEvent × Email :=
  if e.attach_del || e.env_changed then
    let rw := maildir_rewrite_message m_path host orc e
    if rw.1 = 0 then (0, rw.2.1, { rw.2.2 with env_changed := false })
    else (-1, rw.2.1, rw.2.2)
  else
    match syncTarget e with
    | none => (-1, [], e)
    | some part =>
      let full := m_path ++ '/' :: part
      let oldfull := m_path ++ '/' :: e.path
      if full = oldfull then (0, [], e)
      else
        let e := { e with trash := e.deleted }
        if rename_ok then
          (0, [FsEvent.rename_attempt oldfull full .success], { e with path := part })
        else
          (-1, [FsEvent.rename_attempt oldfull full .other_error], e)

/-! Lemmas about the filename codec. -/

theorem afterLastSlash_no_slash {s : List Char} :
    ∀ c ∈ afterLastSlash s, (c == '/') = false := by
  intro c hc
  rw [afterLastSlash, List.mem_reverse] at hc
  have := List.mem_takeWhile_imp hc
  simpa using this

theorem afterLastSlash_eq_self {s : List Char} (h : ∀ c ∈ s, (c == '/') = false) :
    afterLastSlash s = s := by
  rw [afterLastSlash, List.takeWhile_eq_self_iff.2, List.reverse_reverse]
  intro c hc
  rw [List.mem_reverse] at hc
  simp [h c hc]

theorem canon_no_delim {s : List Char} :
    ∀ c ∈ maildir_canon_filename s, (c == ',' || c == ':') = false := by
  intro c hc
  have := List.mem_takeWhile_imp hc
  simpa using this

theorem canon_no_slash {s : List Char} :
    ∀ c ∈ maildir_canon_filename s, (c == '/') = false := by
  intro c hc
  exact afterLastSlash_no_slash c ((List.takeWhile_prefix _).subset hc)

/-- Claim C9: `maildir_canon_filename` is idempotent — stripping the
directory prefix and truncating at the first `,` or `:` yields a fixed
point on second application. -/
theorem canon_filename_idempotent (s : List Char) :
    maildir_canon_filename (maildir_canon_filename s) = maildir_canon_filename s := by
  have h1 : afterLastSlash (maildir_canon_filename s) = maildir_canon_filename s :=
    afterLastSlash_eq_self canon_no_slash
  rw [maildir_canon_filename, h1, List.takeWhile_eq_self_iff]
  intro c hc
  simpa using canon_no_delim c hc

/-! Lemmas about the flag-parsing loop. -/

theorem parseFlagLoop_flagged (fs : Bool) (l : List Char) :
    ∀ (e : Email) (q : List Char),
      (parseFlagLoop fs l e q).1.flagged = (e.flagged || l.contains 'F') := by
  induction l with
  | nil => intro e q; simp [parseFlagLoop]
  | cons c rest ih =>
    intro e q
    by_cases hF : c = 'F'
    · subst hF; simp [parseFlagLoop, ih]
    · by_cases hR : c = 'R'
      · subst hR; simp [parseFlagLoop, ih]
      · by_cases hS : c = 'S'
        · subst hS; simp [parseFlagLoop, ih]
        · by_cases hT : c = 'T'
          · subst hT
            by_cases hsafe : (!e.flagged || !fs) = true
            · simp [parseFlagLoop, hsafe, ih]
            · simp [parseFlagLoop, hsafe, ih]
          · simp [parseFlagLoop, hF, hR, hS, hT, ih, Ne.symm hF]

theorem parseFlagLoop_replied (fs : Bool) (l : List Char) :
    ∀ (e : Email) (q : List Char),
      (parseFlagLoop fs l e q).1.replied = (e.replied || l.contains 'R') := by
  induction l with
  | nil => intro e q; simp [parseFlagLoop]
  | cons c rest ih =>
    intro e q
    by_cases hF : c = 'F'
    · subst hF; simp [parseFlagLoop, ih]
    · by_cases hR : c = 'R'
      · subst hR; simp [parseFlagLoop, ih]
      · by_cases hS : c = 'S'
        · subst hS; simp [parseFlagLoop, ih]
        · by_cases hT : c = 'T'
          · subst hT
            by_cases hsafe : (!e.flagged || !fs) = true
            · simp [parseFlagLoop, hsafe, ih]
            · simp [parseFlagLoop, hsafe, ih]
          · simp [parseFlagLoop, hF, hR, hS, hT, ih, Ne.symm hR]

theorem parseFlagLoop_read (fs : Bool) (l : List Char) :
    ∀ (e : Email) (q : List Char),
      (parseFlagLoop fs l e q).1.read = (e.read || l.contains 'S') := by
  induction l with
  | nil => intro e q; simp [parseFlagLoop]
  | cons c rest ih =>
    intro e q
    by_cases hF : c = 'F'
    · subst hF; simp [parseFlagLoop, ih]
    · by_cases hR : c = 'R'
      · subst hR; simp [parseFlagLoop, ih]
      · by_cases hS : c = 'S'
        · subst hS; simp [parseFlagLoop, ih]
        · by_cases hT : c = 'T'
          · subst hT
            by_cases hsafe : (!e.flagged || !fs) = true
            · simp [parseFlagLoop, hsafe, ih]
            · simp [parseFlagLoop, hsafe, ih]
          · simp [parseFlagLoop, hF, hR, hS, hT, ih, Ne.symm hS]

theorem parseFlagLoop_extras (fs : Bool) (l : List Char) :
    ∀ (e : Email) (q : List Char),
      (parseFlagLoop fs l e q).2 = q ++ l.filter isNonStdFlag := by
  induction l with
  | nil => intro e q; simp [parseFlagLoop]
  | cons c rest ih =>
    intro e q
    by_cases hF : c = 'F'
    · subst hF; simp [parseFlagLoop, ih, isNonStdFlag]
    · by_cases hR : c = 'R'
      · subst hR; simp [parseFlagLoop, ih, isNonStdFlag]
      · by_cases hS : c = 'S'
        · subst hS; simp [parseFlagLoop, ih, isNonStdFlag]
        · by_cases hT : c = 'T'
          · subst hT
            by_cases hsafe : (!e.flagged || !fs) = true
            · simp [parseFlagLoop, hsafe, ih, isNonStdFlag]
            · simp [parseFlagLoop, hsafe, ih, isNonStdFlag]
          · simp [parseFlagLoop, hF, hR, hS, hT, ih, isNonStdFlag]

theorem parseFlagLoop_trash_unsafe (l : List Char) :
    ∀ (e : Email) (q : List Char),
      (parseFlagLoop false l e q).1.trash = (e.trash || l.contains 'T') ∧
      (parseFlagLoop false l e q).1.deleted = (e.deleted || l.contains 'T') := by
  induction l with
  | nil => intro e q; simp [parseFlagLoop]
  | cons c rest ih =>
    intro e q
    by_cases hF : c = 'F'
    · subst hF; simp [parseFlagLoop, ih]
    · by_cases hR : c = 'R'
      · subst hR; simp [parseFlagLoop, ih]
      · by_cases hS : c = 'S'
        · subst hS; simp [parseFlagLoop, ih]
        · by_cases hT : c = 'T'
          · subst hT; simp [parseFlagLoop, ih]
          · simp [parseFlagLoop, hF, hR, hS, hT, ih, Ne.symm hT]

theorem parseFlagLoop_trash_safe (l : List Char) :
    ∀ (e : Email) (q : List Char),
      (parseFlagLoop true l e q).1.trash =
        (e.trash || (!e.flagged && (l.takeWhile (fun c => !(c == 'F'))).contains 'T')) ∧
      (parseFlagLoop true l e q).1.deleted =
        (e.deleted || (!e.flagged && (l.takeWhile (fun c => !(c == 'F'))).contains 'T')) := by
  induction l with
  | nil => intro e q; simp [parseFlagLoop]
  | cons c rest ih =>
    intro e q
    by_cases hF : c = 'F'
    · subst hF; simp [parseFlagLoop, ih]
    · by_cases hR : c = 'R'
      · subst hR; simp [parseFlagLoop, ih, hF]
      · by_cases hS : c = 'S'
        · subst hS; simp [parseFlagLoop, ih, hF]
        · by_cases hT : c = 'T'
          · subst hT
            by_cases hfl : e.flagged = true
            · simp [parseFlagLoop, hfl, ih]
            · have hfl' : e.flagged = false := by
                cases h : e.flagged
                · rfl
                · exact absurd h hfl
              simp [parseFlagLoop, hfl', ih]
          · simp [parseFlagLoop, hF, hR, hS, hT, ih, Ne.symm hT]

/-! Lemmas about flag generation and the round trip. -/

theorem contains_eq_decide_mem (l : List Char) (c : Char) : l.contains c = decide (c ∈ l) := by
  induction l with
  | nil => simp
  | cons a rest ih => simp [List.contains_cons, ih]

theorem insertSorted_perm (c : Char) (l : List Char) : (insertSorted c l).Perm (c :: l) := by
  induction l with
  | nil => exact List.Perm.refl _
  | cons d rest ih =>
    rw [insertSorted]
    by_cases h : c.toNat ≤ d.toNat
    · rw [if_pos h]
    · rw [if_neg h]
      exact (ih.cons d).trans (List.Perm.swap c d rest)

theorem sortChars_perm (l : List Char) : (sortChars l).Perm l := by
  induction l with
  | nil => exact List.Perm.refl _
  | cons c rest ih => exact (insertSorted_perm c (sortChars rest)).trans (ih.cons c)

theorem takeWhile_append_all {p : Char → Bool} {l1 l2 : List Char}
    (h : ∀ c ∈ l1, p c = true) :
    (l1 ++ l2).takeWhile p = l1 ++ l2.takeWhile p := by
  rw [List.takeWhile_append, List.takeWhile_eq_self_iff.2 h, if_pos rfl]

theorem flagSuffix_gen {t : List Char} (h : ∀ c ∈ t, (c == ':') = false) :
    flagSuffix (':' :: '2' :: ',' :: t) = some t := by
  have hrev : ∀ c ∈ t.reverse, (fun c => !(c == ':')) c = true := by
    intro c hc
    rw [List.mem_reverse] at hc
    simp [h c hc]
  have h1 : afterLastColon (':' :: '2' :: ',' :: t) = '2' :: ',' :: t := by
    rw [afterLastColon]
    have h2 : (':' :: '2' :: ',' :: t).reverse = t.reverse ++ [',', '2', ':'] := by simp
    rw [h2, takeWhile_append_all hrev]
    rw [show List.takeWhile (fun c => !(c == ':')) [',', '2', ':'] = [',', '2'] from rfl]
    simp
  have hc : (':' :: '2' :: ',' :: t).contains ':' = true := by
    simp [List.contains_cons]
  simp [flagSuffix, hc, h1]

theorem mem_stdFlags {fl re se tr : Bool} {c : Char} :
    c ∈ stdFlags fl re se tr ↔
      ((fl = true ∧ c = 'F') ∨ (re = true ∧ c = 'R') ∨
       (se = true ∧ c = 'S') ∨ (tr = true ∧ c = 'T')) := by
  cases fl <;> cases re <;> cases se <;> cases tr <;> simp [stdFlags]

theorem filter_stdFlags (fl re se tr : Bool) :
    (stdFlags fl re se tr).filter isNonStdFlag = [] := by
  cases fl <;> cases re <;> cases se <;> cases tr <;> decide

/-- Claim C5 (amended): parsing the suffix generated from a flag set
yields the same flag set — standard bits equal, opaque extras equal as a
multiset — provided the extras are opaque flag letters and we are not in
the one diverging situation (flag-safe policy active on a set that is both
flagged and trashed, where the parser refuses to mark the trash). -/
theorem flag_roundtrip (fsafe : Bool) (F : FlagSet)
    (hex : ∀ c ∈ F.extras, isOpaqueFlagChar c = true)
    (hsafe : fsafe = false ∨ F.flagged = false ∨ F.trashed = false) :
    (parse_flags fsafe (generate_suffix F)).flagged = F.flagged ∧
    (parse_flags fsafe (generate_suffix F)).replied = F.replied ∧
    (parse_flags fsafe (generate_suffix F)).read = F.seen ∧
    (parse_flags fsafe (generate_suffix F)).trash = F.trashed ∧
    (parse_flags fsafe (generate_suffix F)).deleted = F.trashed ∧
    (parse_flags fsafe (generate_suffix F)).maildir_flags.Perm F.extras := by
  obtain ⟨fl, re, se, tr, ex⟩ := F
  simp only at hex hsafe
  by_cases hGen : (fl || re || se || tr || false || !ex.isEmpty) = true
  · -- a real suffix is generated
    have hexF : 'F' ∉ ex := fun h => absurd (hex _ h) (by decide)
    have hexR : 'R' ∉ ex := fun h => absurd (hex _ h) (by decide)
    have hexS : 'S' ∉ ex := fun h => absurd (hex _ h) (by decide)
    have hexT : 'T' ∉ ex := fun h => absurd (hex _ h) (by decide)
    have hmem0 : ∀ c : Char,
        c ∈ stdFlags fl re se tr ++ ex ↔
          ((fl = true ∧ c = 'F') ∨ (re = true ∧ c = 'R') ∨
           (se = true ∧ c = 'S') ∨ (tr = true ∧ c = 'T') ∨ c ∈ ex) := by
      intro c
      rw [List.mem_append, mem_stdFlags]
      tauto
    set t' := (if !ex.isEmpty then sortChars (stdFlags fl re se tr ++ ex)
      else stdFlags fl re se tr ++ ex) with ht'
    have hname : generate_suffix ⟨fl, re, se, tr, ex⟩ = ':' :: '2' :: ',' :: t' := by
      simp only [generate_suffix, emailOfFlagSet, maildir_gen_flags]
      rw [if_pos hGen]
    have hperm : t'.Perm (stdFlags fl re se tr ++ ex) := by
      rw [ht']
      split
      · exact sortChars_perm _
      · exact List.Perm.refl _
    have hnocolon : ∀ c ∈ t', (c == ':') = false := by
      intro c hc
      rcases (hmem0 c).1 (hperm.mem_iff.1 hc) with ⟨-, rfl⟩ | ⟨-, rfl⟩ | ⟨-, rfl⟩ | ⟨-, rfl⟩ | h
      · decide
      · decide
      · decide
      · decide
      · have halpha := hex _ h
        by_cases hcc : c = ':'
        · subst hcc; exact absurd halpha (by decide)
        · simp [hcc]
    have hsfx : flagSuffix (generate_suffix ⟨fl, re, se, tr, ex⟩) = some t' := by
      rw [hname]; exact flagSuffix_gen hnocolon
    have hparse : parse_flags fsafe (generate_suffix ⟨fl, re, se, tr, ex⟩) =
        { (parseFlagLoop fsafe t' {} []).1 with
          maildir_flags := (parseFlagLoop fsafe t' {} []).2 } := by
      simp [parse_flags, maildir_parse_flags, hsfx]
    have hcF : t'.contains 'F' = fl := by
      have hiff : 'F' ∈ t' ↔ fl = true := by
        rw [hperm.mem_iff, hmem0]
        cases fl <;> simp [hexF]
      rw [contains_eq_decide_mem, decide_eq_decide.2 hiff]
      cases fl <;> rfl
    have hcR : t'.contains 'R' = re := by
      have hiff : 'R' ∈ t' ↔ re = true := by
        rw [hperm.mem_iff, hmem0]
        cases re <;> simp [hexR]
      rw [contains_eq_decide_mem, decide_eq_decide.2 hiff]
      cases re <;> rfl
    have hcS : t'.contains 'S' = se := by
      have hiff : 'S' ∈ t' ↔ se = true := by
        rw [hperm.mem_iff, hmem0]
        cases se <;> simp [hexS]
      rw [contains_eq_decide_mem, decide_eq_decide.2 hiff]
      cases se <;> rfl
    have hcT : t'.contains 'T' = tr := by
      have hiff : 'T' ∈ t' ↔ tr = true := by
        rw [hperm.mem_iff, hmem0]
        cases tr <;> simp [hexT]
      rw [contains_eq_decide_mem, decide_eq_decide.2 hiff]
      cases tr <;> rfl
    have htrash : (parseFlagLoop fsafe t' ({} : Email) []).1.trash = tr ∧
        (parseFlagLoop fsafe t' ({} : Email) []).1.deleted = tr := by
      cases fsafe with
      | false =>
        have h := parseFlagLoop_trash_unsafe t' {} []
        constructor
        · rw [h.1, show ({} : Email).trash = false from rfl, Bool.false_or, hcT]
        · rw [h.2, show ({} : Email).deleted = false from rfl, Bool.false_or, hcT]
      | true =>
        have h := parseFlagLoop_trash_safe t' {} []
        have key : (!({} : Email).flagged &&
            (t'.takeWhile (fun c => !(c == 'F'))).contains 'T') = tr := by
          rw [show ({} : Email).flagged = false from rfl, Bool.not_false, Bool.true_and]
          rcases hsafe with h0 | hfl | htr
          · exact absurd h0 (by decide)
          · have hflagfree : t'.takeWhile (fun c => !(c == 'F')) = t' := by
              rw [List.takeWhile_eq_self_iff]
              intro c hc
              have hFmem : 'F' ∉ t' := by
                rw [hperm.mem_iff, hmem0]
                simp [hfl, hexF]
              by_cases hcc : c = 'F'
              · subst hcc; exact absurd hc hFmem
              · simp [hcc]
            rw [hflagfree, hcT]
          · have hTfree : 'T' ∉ t'.takeWhile (fun c => !(c == 'F')) := by
              intro hTin
              have hmem : 'T' ∈ t' := (List.takeWhile_prefix _).subset hTin
              rw [hperm.mem_iff, hmem0] at hmem
              rcases hmem with ⟨-, h1⟩ | ⟨-, h1⟩ | ⟨-, h1⟩ | ⟨h1, -⟩ | h1
              · exact absurd h1 (by decide)
              · exact absurd h1 (by decide)
              · exact absurd h1 (by decide)
              · rw [htr] at h1; exact absurd h1 (by decide)
              · exact hexT h1
            rw [htr, contains_eq_decide_mem]
            simpa using hTfree
        constructor
        · rw [h.1, show ({} : Email).trash = false from rfl, Bool.false_or]; exact key
        · rw [h.2, show ({} : Email).deleted = false from rfl, Bool.false_or]; exact key
    have hextras : (parseFlagLoop fsafe t' ({} : Email) []).2.Perm ex := by
      rw [parseFlagLoop_extras]
      have h1 : (t'.filter isNonStdFlag).Perm
          ((stdFlags fl re se tr ++ ex).filter isNonStdFlag) := hperm.filter _
      rw [List.filter_append, filter_stdFlags, List.nil_append] at h1
      have h2 : ex.filter isNonStdFlag = ex := by
        rw [List.filter_eq_self]
        intro c hc
        have h3 := hex _ hc
        rw [isOpaqueFlagChar, Bool.and_eq_true] at h3
        exact h3.2
      rw [h2] at h1
      simpa using h1
    rw [hparse]
    refine ⟨?_, ?_, ?_, ?_, ?_, ?_⟩
    · show (parseFlagLoop fsafe t' {} []).1.flagged = fl
      rw [parseFlagLoop_flagged, show ({} : Email).flagged = false from rfl, Bool.false_or, hcF]
    · show (parseFlagLoop fsafe t' {} []).1.replied = re
      rw [parseFlagLoop_replied, show ({} : Email).replied = false from rfl, Bool.false_or, hcR]
    · show (parseFlagLoop fsafe t' {} []).1.read = se
      rw [parseFlagLoop_read, show ({} : Email).read = false from rfl, Bool.false_or, hcS]
    · show (parseFlagLoop fsafe t' {} []).1.trash = tr
      exact htrash.1
    · show (parseFlagLoop fsafe t' {} []).1.deleted = tr
      exact htrash.2
    · show (parseFlagLoop fsafe t' {} []).2.Perm ex
      exact hextras
  · -- no suffix at all: everything is empty and parsing the empty name
    -- leaves the fresh record untouched
    have hfl : fl = false := by
      cases h : fl
      · rfl
      · exact absurd (by rw [h]; simp : (fl || re || se || tr || false || !ex.isEmpty) = true) hGen
    have hre : re = false := by
      cases h : re
      · rfl
      · exact absurd (by rw [h]; simp : (fl || re || se || tr || false || !ex.isEmpty) = true) hGen
    have hse : se = false := by
      cases h : se
      · rfl
      · exact absurd (by rw [h]; simp : (fl || re || se || tr || false || !ex.isEmpty) = true) hGen
    have htr : tr = false := by
      cases h : tr
      · rfl
      · exact absurd (by rw [h]; simp : (fl || re || se || tr || false || !ex.isEmpty) = true) hGen
    have hex0 : ex = [] := by
      cases hx : ex with
      | nil => rfl
      | cons a l =>
        exact absurd (by rw [hx]; simp : (fl || re || se || tr || false || !ex.isEmpty) = true) hGen
    subst hex0; subst hfl; subst hre; subst hse; subst htr
    exact ⟨rfl, rfl, rfl, rfl, rfl, List.Perm.refl _⟩


/-- Concrete flag set refuting the unconditional round-trip claim: flagged
and trashed together, parsed under an active flag-safe policy. -/
def roundtripCex : FlagSet := ⟨true, false, false, true, []⟩

/-- Claim C5 (counterexample): with the flag-safe policy active, parsing
the suffix generated from the flagged+trashed flag set does not yield the
set back — the parsed record is neither trashed nor deleted. -/
theorem flag_roundtrip_cex :
    flagSetOf (parse_flags true (generate_suffix roundtripCex)) ≠ roundtripCex ∧
    (parse_flags true (generate_suffix roundtripCex)).trash = false ∧
    (parse_flags true (generate_suffix roundtripCex)).deleted = false := by
  decide

/-- Witness for the round trip at a concrete input (unsorted extras,
flag-safe off). -/
theorem flag_roundtrip_witness :
    (parse_flags false (generate_suffix ⟨true, true, false, false, ['b', 'a']⟩)).flagged = true ∧
    (parse_flags false (generate_suffix ⟨true, true, false, false, ['b', 'a']⟩)).replied = true ∧
    (parse_flags false (generate_suffix ⟨true, true, false, false, ['b', 'a']⟩)).read = false ∧
    (parse_flags false (generate_suffix ⟨true, true, false, false, ['b', 'a']⟩)).trash = false ∧
    (parse_flags false (generate_suffix ⟨true, true, false, false, ['b', 'a']⟩)).deleted = false ∧
    (parse_flags false
      (generate_suffix ⟨true, true, false, false, ['b', 'a']⟩)).maildir_flags.Perm ['b', 'a'] :=
  flag_roundtrip false ⟨true, true, false, false, ['b', 'a']⟩ (by decide) (Or.inl rfl)

/-- Claim C6 (amended): for a filename with flag suffix `s` containing `T`,
the record is marked both trashed and deleted exactly when the flag-safe
policy is off or some `T` occurs before the first `F` of the suffix; when
the policy is on and every `T` follows an `F`, neither mark is set. -/
theorem parse_T_amended (fsafe : Bool) (s : List Char)
    (hcolon : ∀ c ∈ s, (c == ':') = false) (hT : 'T' ∈ s) :
    (parse_flags fsafe (':' :: '2' :: ',' :: s)).trash =
      (!fsafe || (s.takeWhile (fun c => !(c == 'F'))).contains 'T') ∧
    (parse_flags fsafe (':' :: '2' :: ',' :: s)).deleted =
      (!fsafe || (s.takeWhile (fun c => !(c == 'F'))).contains 'T') := by
  have hsfx := flagSuffix_gen hcolon
  have hparse : parse_flags fsafe (':' :: '2' :: ',' :: s) =
      { (parseFlagLoop fsafe s {} []).1 with
        maildir_flags := (parseFlagLoop fsafe s {} []).2 } := by
    simp [parse_flags, maildir_parse_flags, hsfx]
  have hconT : s.contains 'T' = true := by
    rw [contains_eq_decide_mem]; simpa using hT
  rw [hparse]
  cases fsafe with
  | false =>
    have h := parseFlagLoop_trash_unsafe s {} []
    constructor
    · show (parseFlagLoop false s {} []).1.trash = _
      rw [h.1, show ({} : Email).trash = false from rfl, Bool.false_or, hconT]
      rfl
    · show (parseFlagLoop false s {} []).1.deleted = _
      rw [h.2, show ({} : Email).deleted = false from rfl, Bool.false_or, hconT]
      rfl
  | true =>
    have h := parseFlagLoop_trash_safe s {} []
    constructor
    · show (parseFlagLoop true s {} []).1.trash = _
      rw [h.1]
      simp
    · show (parseFlagLoop true s {} []).1.deleted = _
      rw [h.2]
      simp

/-- Claim C6 (counterexample): the file `:2,FT` under an active flag-safe
policy yields a record that is flagged but neither trashed nor deleted —
the claim promised trashed-but-not-deleted. -/
theorem parse_T_cex :
    (parse_flags true (':' :: '2' :: ',' :: ['F', 'T'])).flagged = true ∧
    (parse_flags true (':' :: '2' :: ',' :: ['F', 'T'])).trash = false ∧
    (parse_flags true (':' :: '2' :: ',' :: ['F', 'T'])).deleted = false := by
  decide

/-- Witness for the amended `T` parsing at the concrete suffix `T` with the
flag-safe policy active. -/
theorem parse_T_witness :
    (parse_flags true (':' :: '2' :: ',' :: ['T'])).trash =
      (!true || (['T'].takeWhile (fun c => !(c == 'F'))).contains 'T') ∧
    (parse_flags true (':' :: '2' :: ',' :: ['T'])).deleted =
      (!true || (['T'].takeWhile (fun c => !(c == 'F'))).contains 'T') :=
  parse_T_amended true ['T'] (by decide) (by decide)

/-! Lemmas about the reconciliation merge loop. -/

theorem consumeByCanon_not_found {key : List Char} :
    ∀ {mda : List MdEmail}, (∀ md ∈ mda, md.canon_fname ≠ key) →
      consumeByCanon key mda = (none, mda) := by
  intro mda
  induction mda with
  | nil => intro _; rfl
  | cons md rest ih =>
    intro h
    have h1 : (md.canon_fname == key) = false := by
      simpa using h md (by simp)
    simp only [consumeByCanon, h1, Bool.false_eq_true, if_false,
      ih (fun md' hm => h md' (List.mem_cons_of_mem _ hm))]

theorem consumeByCanon_canons (key : List Char) :
    ∀ (mda : List MdEmail),
      ((consumeByCanon key mda).2).map MdEmail.canon_fname =
        mda.map MdEmail.canon_fname := by
  intro mda
  induction mda with
  | nil => rfl
  | cons md rest ih =>
    rw [consumeByCanon]
    by_cases h : (md.canon_fname == key) = true
    · simp [h]
    · simp [h, ih]

theorem checkExisting_mda (cn cc : Bool) (mda : List MdEmail) (e : Email) :
    (checkExisting cn cc mda e).mda =
      (consumeByCanon (maildir_canon_filename e.path) mda).2 := by
  simp only [checkExisting]
  split
  · rfl
  · split
    · rfl
    · rfl

theorem checkExisting_canons (cn cc : Bool) (mda : List MdEmail) (e : Email) :
    ((checkExisting cn cc mda e).mda).map MdEmail.canon_fname =
      mda.map MdEmail.canon_fname := by
  rw [checkExisting_mda]
  exact consumeByCanon_canons _ mda

theorem checkLoop_length (cn cc : Bool) :
    ∀ (es : List Email) (mda : List MdEmail) (occ fc : Bool),
      (checkLoop cn cc es mda occ fc).emails.length = es.length := by
  intro es
  induction es with
  | nil => intro mda occ fc; rfl
  | cons e rest ih => intro mda occ fc; simp [checkLoop, ih]

theorem checkLoop_occ_mono (cn cc : Bool) :
    ∀ (es : List Email) (mda : List MdEmail) (fc : Bool),
      (checkLoop cn cc es mda true fc).occult = true := by
  intro es
  induction es with
  | nil => intro mda fc; rfl
  | cons e rest ih =>
    intro mda fc
    simp only [checkLoop, Bool.true_or]
    exact ih _ _

theorem checkLoop_vanished (cn cc : Bool) :
    ∀ (es : List Email) (mda : List MdEmail) (occ fc : Bool) (i : Nat),
      i < es.length →
      (∀ md ∈ mda, md.canon_fname ≠ maildir_canon_filename (es.getD i {}).path) →
      vanishCond cn cc (es.getD i {}).path = true →
      (checkLoop cn cc es mda occ fc).emails.getD i {} =
        { es.getD i {} with active := false, deleted := true, purge := true } ∧
      (checkLoop cn cc es mda occ fc).occult = true := by
  intro es
  induction es with
  | nil => intro mda occ fc i hi _ _; exact absurd hi (by simp)
  | cons e rest ih =>
    intro mda occ fc i hi hnf hvan
    cases i with
    | zero =>
      rw [List.getD_cons_zero] at hvan hnf ⊢
      have hstep : checkExisting cn cc mda e =
          { email := { e with active := false, deleted := true, purge := true },
            mda := mda, occult := true, flags_changed := false } := by
        have hcons := consumeByCanon_not_found hnf
        simp only [checkExisting, hcons, hvan, if_true]
      constructor
      · simp only [checkLoop, hstep, List.getD_cons_zero]
      · simp only [checkLoop, hstep, Bool.or_true]
        exact checkLoop_occ_mono cn cc rest mda _
    | succ j =>
      rw [List.getD_cons_succ] at hvan hnf ⊢
      have hi' : j < rest.length := by simpa using hi
      have hnf' : ∀ md ∈ (checkExisting cn cc mda e).mda,
          md.canon_fname ≠ maildir_canon_filename (rest.getD j {}).path := by
        intro md' hm
        have hmem : md'.canon_fname ∈ ((checkExisting cn cc mda e).mda).map MdEmail.canon_fname :=
          List.mem_map_of_mem _ hm
        rw [checkExisting_canons] at hmem
        obtain ⟨md, hmd, heq⟩ := List.mem_map.1 hmem
        rw [← heq]
        exact hnf md hmd
      have hrec := ih (checkExisting cn cc mda e).mda
        (occ || (checkExisting cn cc mda e).occult)
        (fc || (checkExisting cn cc mda e).flags_changed) j hi' hnf' hvan
      constructor
      · simp only [checkLoop, List.getD_cons_succ]
        exact hrec.1
      · simp only [checkLoop]
        exact hrec.2

/-- Claim C1 (amended): a `stat` failure on either subdirectory aborts the
pass with `Error` and leaves the mailbox — records included — exactly as it
was.  A failed directory listing, by contrast, does not abort the pass
(its return value is ignored); see the companion counterexample. -/
theorem check_stat_error (cfg : MaildirConfig) (fs : MaildirFS) (m : Mailbox)
    (hcn : cfg.check_new = true) (h : fs.stat_new = none ∨ fs.stat_cur = none) :
    maildir_mbox_check cfg fs m = (.error, m) := by
  rcases h with h | h
  · simp [maildir_mbox_check, hcn, h]
  · cases hn : fs.stat_new with
    | none => simp [maildir_mbox_check, hcn, hn]
    | some tn => simp [maildir_mbox_check, hcn, hn, h]

/-- Filesystem for the scan-failure counterexample: `cur/` advanced but
cannot be listed. -/
def scanFailFS : MaildirFS :=
  { stat_new := some 0, stat_cur := some 1, list_new := some [], list_cur := none }

/-- Mailbox for the scan-failure counterexample: one clean record in
`cur/`. -/
def scanFailM : Mailbox :=
  { emails := [{ path := "cur/a:2,S".toList, read := true }] }

/-- Claim C1 (counterexample): when the `cur/` listing fails, the pass does
not return `Error` and does not leave the collection untouched — it
proceeds, treats the record as vanished, marks it deleted and purged, and
returns `Reopened`. -/
theorem check_scan_failure_cex :
    (maildir_mbox_check {} scanFailFS scanFailM).1 = .reopened ∧
    (maildir_mbox_check {} scanFailFS scanFailM).1 ≠ .error ∧
    ((maildir_mbox_check {} scanFailFS scanFailM).2.emails.getD 0 {}).deleted = true ∧
    ((maildir_mbox_check {} scanFailFS scanFailM).2.emails.getD 0 {}).purge = true ∧
    (scanFailM.emails.getD 0 {}).deleted = false ∧
    (scanFailM.emails.getD 0 {}).purge = false := by
  decide

/-- Witness for the stat-failure abort at a concrete input. -/
theorem check_stat_error_witness :
    maildir_mbox_check {} { stat_new := none } { emails := [] } =
      (.error, { emails := [] }) :=
  check_stat_error {} { stat_new := none } { emails := [] } rfl (Or.inl rfl)

/-- Claim C2: an existing record whose canonical name is absent from the
fresh candidates and whose subdirectory was rescanned this pass is marked
`deleted` and `purge`, and the pass reports `Reopened`. -/
theorem check_vanish (cfg : MaildirConfig) (fs : MaildirFS) (m : Mailbox)
    (tn tc : Int) (i : Nat)
    (hcn : cfg.check_new = true)
    (hsn : fs.stat_new = some tn) (hsc : fs.stat_cur = some tc)
    (hi : i < m.emails.length)
    (hvan : vanishCond (decide (tn > m.mtime)) (decide (tc > m.mtime_cur))
      (m.emails.getD i {}).path = true)
    (hnf : ∀ md ∈ scanPass cfg fs (decide (tn > m.mtime)) (decide (tc > m.mtime_cur)),
      md.canon_fname ≠ maildir_canon_filename (m.emails.getD i {}).path) :
    (maildir_mbox_check cfg fs m).1 = .reopened ∧
    (maildir_mbox_check cfg fs m).2.emails.getD i {} =
      { m.emails.getD i {} with active := false, deleted := true, purge := true } := by
  have hcc : decide (tn > m.mtime) = true ∨ decide (tc > m.mtime_cur) = true := by
    rw [vanishCond, Bool.or_eq_true, Bool.and_eq_true, Bool.and_eq_true] at hvan
    rcases hvan with ⟨h, -⟩ | ⟨h, -⟩
    · exact Or.inl h
    · exact Or.inr h
  have hif : (!decide (tn > m.mtime) && !decide (tc > m.mtime_cur)) = false := by
    rcases hcc with h | h <;> rw [h] <;> simp
  have hloop := checkLoop_vanished (decide (tn > m.mtime)) (decide (tc > m.mtime_cur))
    m.emails (scanPass cfg fs (decide (tn > m.mtime)) (decide (tc > m.mtime_cur)))
    false false i hi hnf hvan
  have hlen : (mergeOf cfg fs m tn tc).emails.length = m.emails.length :=
    checkLoop_length _ _ _ _ _ _
  have hocc : (mergeOf cfg fs m tn tc).occult = true := hloop.2
  have hget : (mergeOf cfg fs m tn tc).emails.getD i {} =
      { m.emails.getD i {} with active := false, deleted := true, purge := true } := hloop.1
  simp only [maildir_mbox_check, hcn, hsn, hsc, Bool.not_true, Bool.false_eq_true, if_false,
    hif, hocc, if_true]
  refine ⟨trivial, ?_⟩
  rw [maildir_move_to_mailbox]
  rw [List.getD_append _ _ _ _ (by rw [hlen]; exact hi)]
  exact hget

/-- Filesystem for the vanish witness: `cur/` advanced and is listed
empty. -/
def vanishFS : MaildirFS :=
  { stat_new := some 0, stat_cur := some 1, list_new := some [], list_cur := some [] }

/-- Mailbox for the vanish witness: one record in `cur/` whose file is
gone. -/
def vanishM : Mailbox :=
  { emails := [{ path := "cur/b:2,S".toList, read := true }] }

/-- Witness for the vanish detection at a concrete input. -/
theorem check_vanish_witness :
    (maildir_mbox_check {} vanishFS vanishM).1 = .reopened ∧
    (maildir_mbox_check {} vanishFS vanishM).2.emails.getD 0 {} =
      { vanishM.emails.getD 0 {} with active := false, deleted := true, purge := true } :=
  check_vanish {} vanishFS vanishM 0 1 0 rfl rfl rfl (by decide) (by decide) (by decide)

/-- Claim C7 (amended): for a matched record, the candidate's on-disk
`deleted` value is promoted into the record's `deleted` — flagging the pass
as flag-changed when it actually differs — only when the record's `deleted`
EQUALS its `trash`; afterwards the record's `trash` is unconditionally
overwritten by the candidate's `trash`. -/
theorem mergeMatched_deleted (e cand : Email) (h : e.deleted = e.trash) :
    (mergeMatched e cand).1.deleted = cand.deleted ∧
    (mergeMatched e cand).1.trash = cand.trash ∧
    (e.deleted ≠ cand.deleted → (mergeMatched e cand).2 = true) := by
  obtain ⟨p, fl, re, rd, od, de, tr, pu, ac, ch, ad, ec, mf⟩ := e
  have h' : de = tr := h
  subst h'
  cases hcd : cand.deleted <;> cases de <;> cases ch <;>
    by_cases hp : p = cand.path <;>
      simp [mergeMatched, maildir_update_flags, hp, hcd]

/-- Record for the deleted/trash merge counterexample: locally deleted but
not trashed on disk. -/
def mergeCexM : Mailbox :=
  { emails := [{ path := "cur/a:2,S".toList, read := true, deleted := true, trash := false }] }

/-- Filesystem for the deleted/trash merge counterexample: the record's
file still exists, unchanged and untrashed. -/
def mergeCexFS : MaildirFS :=
  { stat_new := some 0, stat_cur := some 1, list_new := some [],
    list_cur := some [{ name := "a:2,S".toList, inode := 1 }] }

/-- Claim C7 (counterexample): a matched record whose `deleted` does NOT
equal its `trash` keeps its `deleted` bit — the candidate's on-disk trash
state is not promoted — and the pass reports `Ok`, not a flag change. -/
theorem check_deleted_merge_cex :
    (maildir_mbox_check {} mergeCexFS mergeCexM).1 = .ok ∧
    ((maildir_mbox_check {} mergeCexFS mergeCexM).2.emails.getD 0 {}).deleted = true ∧
    (mergeCexM.emails.getD 0 {}).deleted = true ∧
    (mergeCexM.emails.getD 0 {}).trash = false := by
  decide

/-- Witness for the amended deleted/trash merge at a concrete input. -/
theorem mergeMatched_deleted_witness :
    (mergeMatched { path := "cur/x".toList, deleted := true, trash := true }
      { path := "cur/x".toList }).1.deleted = ({} : Email).deleted ∧
    (mergeMatched { path := "cur/x".toList, deleted := true, trash := true }
      { path := "cur/x".toList }).1.trash = ({} : Email).trash ∧
    (({ path := "cur/x".toList, deleted := true, trash := true } : Email).deleted ≠
        ({} : Email).deleted →
      (mergeMatched { path := "cur/x".toList, deleted := true, trash := true }
        { path := "cur/x".toList }).2 = true) := by
  have h := mergeMatched_deleted
    { path := "cur/x".toList, deleted := true, trash := true }
    { path := "cur/x".toList } rfl
  exact ⟨h.1, h.2.1, h.2.2⟩

/-- Claim C3 (amended): with checking enabled and both subdirectories
`stat`-able, the pass never returns `Error` (a failed directory listing
does not produce `Error`); if neither mtime advanced it returns `Ok`
immediately with the mailbox untouched; otherwise the status follows the
fixed priority `Reopened` (occult) > `NewMail` (num_new > 0) >
`FlagsChanged` > `Ok`.  (`Error` arises exactly from a `stat` failure,
proved separately for claim C1.) -/
theorem check_status_priority (cfg : MaildirConfig) (fs : MaildirFS) (m : Mailbox)
    (hcn : cfg.check_new = true) (hsn : fs.stat_new.isSome = true)
    (hsc : fs.stat_cur.isSome = true) :
    (maildir_mbox_check cfg fs m).1 ≠ .error ∧
    (¬ fs.stat_new.getD 0 > m.mtime → ¬ fs.stat_cur.getD 0 > m.mtime_cur →
      maildir_mbox_check cfg fs m = (.ok, m)) ∧
    ((fs.stat_new.getD 0 > m.mtime ∨ fs.stat_cur.getD 0 > m.mtime_cur) →
      (maildir_mbox_check cfg fs m).1 =
        (if (mergeOf cfg fs m (fs.stat_new.getD 0) (fs.stat_cur.getD 0)).occult then
          MxStatus.reopened
         else if 0 < numNewOf cfg fs m (fs.stat_new.getD 0) (fs.stat_cur.getD 0) then
          MxStatus.newMail
         else if (mergeOf cfg fs m (fs.stat_new.getD 0) (fs.stat_cur.getD 0)).flags_changed then
          MxStatus.flags
         else MxStatus.ok)) := by
  obtain ⟨tn, htn⟩ := Option.isSome_iff_exists.1 hsn
  obtain ⟨tc, htc⟩ := Option.isSome_iff_exists.1 hsc
  rw [htn, htc]
  simp only [Option.getD_some]
  refine ⟨?_, ?_, ?_⟩
  · simp only [maildir_mbox_check, hcn, htn, htc, Bool.not_true, Bool.false_eq_true, if_false]
    by_cases hx : (!decide (tn > m.mtime) && !decide (tc > m.mtime_cur)) = true
    · rw [if_pos hx]
      simp
    · rw [if_neg hx]
      split
      · simp
      · split
        · simp
        · split
          · simp
          · simp
  · intro h1 h2
    have hx : (!decide (tn > m.mtime) && !decide (tc > m.mtime_cur)) = true := by
      simp [h1, h2]
    simp only [maildir_mbox_check, hcn, htn, htc, Bool.not_true, Bool.false_eq_true, if_false]
    rw [if_pos hx]
  · intro h
    have hx : ¬ ((!decide (tn > m.mtime) && !decide (tc > m.mtime_cur)) = true) := by
      rcases h with h | h <;> simp [h]
    simp only [maildir_mbox_check, hcn, htn, htc, Bool.not_true, Bool.false_eq_true, if_false]
    rw [if_neg hx, numNewOf]
    rw [apply_ite Prod.fst, apply_ite Prod.fst, apply_ite Prod.fst]

/-- Filesystem for the status counterexample: `new/` advanced but cannot be
listed; `cur/` unchanged. -/
def statusCexFS : MaildirFS :=
  { stat_new := some 1, stat_cur := some 0, list_new := none, list_cur := some [] }

/-- Claim C3 (counterexample): a failed directory-listing scan step does
not yield `Error` — here the pass returns `Ok`. -/
theorem check_status_cex :
    (maildir_mbox_check {} statusCexFS { emails := [] }).1 = .ok ∧
    statusCexFS.list_new = none := by
  decide

/-- Witness for the status priority at a concrete input: the mtime
short-circuit returns `Ok` with the mailbox untouched. -/
theorem check_status_witness :
    maildir_mbox_check {}
      { stat_new := some 0, stat_cur := some 0, list_new := some [], list_cur := some [] }
      { emails := [] } = (.ok, { emails := [] }) :=
  (check_status_priority {}
    { stat_new := some 0, stat_cur := some 0, list_new := some [], list_cur := some [] }
    { emails := [] } rfl rfl rfl).2.1 (by decide) (by decide)

/-! Lemmas about the commit engine. -/

theorem commitLoop_trace (m_path host subdir suffix : List Char) (msg : Message) (u : Bool) :
    ∀ (atts : List (Nat × Nat × RenameResult)) (tr : List FsEvent),
      ∃ t, (commitLoop m_path host subdir suffix msg u atts tr).2.1 = tr ++ t := by
  intro atts
  induction atts with
  | nil => intro tr; exact ⟨[], by simp [commitLoop]⟩
  | cons a rest ih =>
    intro tr
    obtain ⟨ep, rnd, res⟩ := a
    cases res with
    | success =>
      cases hr : msg.received with
      | none =>
        exact ⟨[FsEvent.rename_attempt msg.path
          (m_path ++ '/' :: commitName subdir suffix host ep rnd) .success],
          by simp [commitLoop, hr]⟩
      | some t0 =>
        by_cases hu : u = true
        · exact ⟨[FsEvent.rename_attempt msg.path
            (m_path ++ '/' :: commitName subdir suffix host ep rnd) .success,
            FsEvent.set_mtime (m_path ++ '/' :: commitName subdir suffix host ep rnd) t0],
            by simp [commitLoop, hr, hu, List.append_assoc]⟩
        · exact ⟨[FsEvent.rename_attempt msg.path
            (m_path ++ '/' :: commitName subdir suffix host ep rnd) .success,
            FsEvent.set_mtime (m_path ++ '/' :: commitName subdir suffix host ep rnd) t0],
            by simp [commitLoop, hr, hu, List.append_assoc]⟩
    | eexist =>
      obtain ⟨t, ht⟩ := ih (tr ++
        [FsEvent.rename_attempt msg.path
          (m_path ++ '/' :: commitName subdir suffix host ep rnd) .eexist])
      exact ⟨[FsEvent.rename_attempt msg.path
        (m_path ++ '/' :: commitName subdir suffix host ep rnd) .eexist] ++ t,
        by simp only [commitLoop]; rw [ht, List.append_assoc]⟩
    | other_error =>
      exact ⟨[FsEvent.rename_attempt msg.path
        (m_path ++ '/' :: commitName subdir suffix host ep rnd) .other_error],
        by simp [commitLoop]⟩

/-- Claim C4: in every commit, any rename attempt in the event trace is
preceded by the successful fsync-and-close of the source handle, which is
always the very first event — the destination name can never exist before
the source data is flushed. -/
theorem commit_fsync_before_rename (m_path host : List Char) (co : CommitOracle)
    (msg : Message) (i : Nat) (src dst : List Char) (res : RenameResult)
    (h : (maildir_commit_message m_path host co msg).2.1.get? i =
      some (FsEvent.rename_attempt src dst res)) :
    0 < i ∧ (maildir_commit_message m_path host co msg).2.1.get? 0 =
      some (FsEvent.fsync_close true) := by
  cases hok : msg.fp_fsync_ok with
  | false =>
    rw [maildir_commit_message, hok] at h
    cases i with
    | zero => simp at h
    | succ j => simp at h
  | true =>
    obtain ⟨t, ht⟩ := commitLoop_trace m_path host
      ((afterLastSlash msg.path).take 3)
      (((afterLastSlash msg.path).dropWhile (fun c => !(c == ':'))).take 15)
      msg co.utime_ok co.attempts [FsEvent.fsync_close true]
    have htr : (maildir_commit_message m_path host co msg).2.1 =
        FsEvent.fsync_close true :: t := by
      rw [maildir_commit_message, hok]
      simpa using ht
    rw [htr] at h ⊢
    refine ⟨?_, rfl⟩
    cases i with
    | zero => simp at h
    | succ j => simp

/-- Witness for the commit ordering at a concrete input: one successful
rename after a successful flush. -/
theorem commit_fsync_before_rename_witness :
    0 < 1 ∧
    (maildir_commit_message ("/mb".toList) ("h".toList)
      { attempts := [(5, 7, .success)] }
      { fp_fsync_ok := true, path := ("tmp/cur.x:2,S".toList) }).2.1.get? 0 =
      some (FsEvent.fsync_close true) :=
  commit_fsync_before_rename ("/mb".toList) ("h".toList)
    { attempts := [(5, 7, .success)] }
    { fp_fsync_ok := true, path := ("tmp/cur.x:2,S".toList) } 1
    ("tmp/cur.x:2,S".toList) ("/mb/cur/5.R7.h:2,S".toList) .success (by decide)

/-- Claim C8 (amended): syncing a record that needs no rewrite
(`attach_del` unset, envelope unchanged) and whose recomputed target path
equals its current path performs no filesystem mutation at all — the event
trace is empty — returns success, and leaves the record untouched. -/
theorem sync_noop (m_path host : List Char) (orc : RewriteOracle) (rok : Bool) (e : Email)
    (h1 : e.attach_del = false) (h2 : e.env_changed = false)
    (h3 : syncTarget e = some e.path) :
    maildir_sync_message m_path host orc rok e = (0, [], e) := by
  simp [maildir_sync_message, h1, h2, h3]

/-- Record for the no-op-sync counterexample: its recomputed target equals
its current path, but it needs attachment rewriting. -/
def noopCexEmail : Email :=
  { path := "cur/a:2,S".toList, read := true, attach_del := true }

/-- Oracle for the no-op-sync counterexample: every step of the rewrite
succeeds. -/
def noopCexOrc : RewriteOracle :=
  { create_attempts := [(1, 2, .created)], commit := { attempts := [(3, 4, .success)] } }

/-- Claim C8 (counterexample): a record whose computed target equals its
current path but which carries `attach_del` takes the rewrite path and
does mutate the filesystem — the emitted event trace is non-empty. -/
theorem sync_noop_cex :
    syncTarget noopCexEmail = some noopCexEmail.path ∧
    (maildir_sync_message ("/mb".toList) ("h".toList) noopCexOrc true noopCexEmail).2.1 ≠ [] := by
  decide

/-- Witness for the no-op sync at a concrete input. -/
theorem sync_noop_witness :
    maildir_sync_message ("/mb".toList) ("h".toList) {} true
      { path := "cur/a:2,S".toList, read := true } =
      (0, [], { path := "cur/a:2,S".toList, read := true }) :=
  sync_noop ("/mb".toList) ("h".toList) {} true
    { path := "cur/a:2,S".toList, read := true } rfl rfl (by decide)

/-! Lemmas about the fast counting scan. -/

theorem check_dir_step_trashed (mcr cs : Bool) (st : CountState) (de : CountEntry)
    (h : hasTrashedSuffix de.name = true) :
    maildir_check_dir_step mcr cs st de = st := by
  simp [maildir_check_dir_step, h]

theorem check_dir_loop_filter (mcr cs : Bool) :
    ∀ (des : List CountEntry) (st : CountState),
      maildir_check_dir_loop mcr cs st des =
        maildir_check_dir_loop mcr cs st
          (des.filter fun de => !hasTrashedSuffix de.name) := by
  intro des
  induction des with
  | nil => intro st; rfl
  | cons de rest ih =>
    intro st
    by_cases hT : hasTrashedSuffix de.name = true
    · rw [maildir_check_dir_loop, check_dir_step_trashed mcr cs st de hT]
      rw [List.filter_cons]
      simp only [hT, Bool.not_true, Bool.false_eq_true, if_false]
      exact ih st
    · rw [maildir_check_dir_loop, List.filter_cons]
      have hT' : (!hasTrashedSuffix de.name) = true := by
        cases h : hasTrashedSuffix de.name
        · rfl
        · exact absurd h hT
      simp only [hT', if_true]
      rw [maildir_check_dir_loop]
      exact ih _

/-- Claim C10: the fast counting scan skips every entry whose `:2,` flag
suffix contains `T` — running it on a listing is the same as running it on
the listing with all such entries removed, so trashed files contribute to
no counter and can never trigger new-mail detection. -/
theorem check_dir_skips_trashed (mcr dirm : Bool) (des : List CountEntry)
    (counts : DirCounts) (cn cs : Bool) :
    maildir_check_dir mcr ⟨dirm, some des⟩ counts cn cs =
      maildir_check_dir mcr
        ⟨dirm, some (des.filter fun de => !hasTrashedSuffix de.name)⟩ counts cn cs := by
  simp only [maildir_check_dir]
  split
  · split
    · rfl
    · rw [check_dir_loop_filter]
  · split
    · rfl
    · rw [check_dir_loop_filter]

end Maildir
